import Mathlib

/-!
Verification of the crawled-news-checker pipeline.

This file gives a shallow embedding, in Lean, of the incremental file-pair
reconciliation pipeline: grouping S3 listings into pairs, classifying
completeness, the ledger-based skip logic of `readHtmlAndMetadata`, the
ledger-document construction of `saveProcessedFiles`, the metadata/article
assembly of `extractMetadata` / `createArticleObject`, and the article
reconciler (`checkExistingArticles` plus the new/skipped partition).

JavaScript objects used as string-keyed dictionaries are embedded as
association lists `List (String × α)` with insertion-order overwrite
(`jsSet`) and `undefined`-as-`none` lookup (`jsGet`).  Host capabilities
(S3 fetch, wall-clock durations, the host date parser) are passed in as
explicit function parameters.
-/

namespace CrawledNews

/-- Assignment `m[k] = v` on a JS object: overwrite the binding in place when
the key is already present (JS objects keep the original insertion slot),
otherwise append a new binding. -/
def jsSet {α : Type} (m : List (String × α)) (k : String) (v : α) :
    List (String × α) :=
  if m.any (fun p => p.1 == k) then
    m.map (fun p => if p.1 == k then (k, v) else p)
  else
    m ++ [(k, v)]

/-- Property read `m[k]` on a JS object; `none` models `undefined`. -/
def jsGet {α : Type} (m : List (String × α)) (k : String) : Option α :=
  (m.find? (fun p => p.1 == k)).map (fun p => p.2)

/-- The JS `s.endsWith(post)` test, computed on the underlying characters. -/
def strEndsWith (s post : String) : Bool :=
  post.data.reverse.isPrefixOf s.data.reverse

/-- Splitting a character list at every occurrence of `sep`, as
`String.prototype.split` does (an empty input yields one empty group). -/
def splitChars (sep : Char) : List Char → List (List Char)
  | [] => [[]]
  | c :: rest =>
    match splitChars sep rest with
    | [] => [[]]
    | grp :: grps => if c = sep then [] :: grp :: grps else (c :: grp) :: grps

/-- The JS `s.split(sep)` for a one-character separator. -/
def jsSplit (s : String) (sep : Char) : List String :=
  (splitChars sep s.data).map (fun cs => String.mk cs)

/-- A JSON scalar as it can appear in a crawled metadata field. -/
inductive JsVal where
  | null
  | str (s : String)
  | num (n : Int)
deriving Repr, DecidableEq

/-- JS truthiness of a JSON scalar (`undefined` is handled via `Option`). -/
def JsVal.truthy : JsVal → Bool
  | .null => false
  | .str s => !(s == "")
  | .num n => !(n == 0)

/-- A JS `Date` value: either a valid timestamp (milliseconds since the
epoch) or the `Invalid Date` object.  Constructing a `Date` from a string
never throws; an unparseable string yields `Invalid Date`. -/
inductive JsDate where
  | valid (ms : Int)
  | invalid
deriving Repr, DecidableEq

/-- Evaluation of `new Date(s)` for a string `s`, over the host date parser
`parseDate` (a capability of the JS runtime): an unparseable string gives
the `Invalid Date` object, not an exception. -/
def newDateOfString (parseDate : String → Option Int) (s : String) : JsDate :=
  match parseDate s with
  | some ms => .valid ms
  | none => .invalid

/-- Evaluation of `new Date(v)` for a JSON scalar `v`: numbers are epoch
milliseconds and `null` coerces to 0. -/
def newDateOfVal (parseDate : String → Option Int) : JsVal → JsDate
  | .str s => newDateOfString parseDate s
  | .num n => .valid n
  | .null => .valid 0

/-- The `config.files.htmlFileName` constant (src/unnamed/part_005). -/
def htmlFileName : String := "page.html"

/-- The `config.files.metadataFileName` constant (src/unnamed/part_005). -/
def metadataFileName : String := "metadata.json"

/-- One entry of an S3 `listObjectsV2` listing, as the pipeline consumes it.
The `LastModified` JS `Date` is carried as the ISO-8601 string that
`file.LastModified.toISOString()` renders, which is the form all the
comparisons in the source are made in. -/
structure S3Object where
  Key : String
  Size : Nat
  lastModifiedISO : String
deriving Repr, DecidableEq

/-- One element of the `results` array built by `readHtmlAndMetadata`. -/
structure FileContent where
  key : String
  type : String
  lastModified : String
  content : String
deriving Repr, DecidableEq

/-- The per-object transient `processingResults[fileKey]` record.  The
`processingTimeMs` and `fileSize` fields are optional because the default
record `{ success: true, error: null }` substituted in `saveProcessedFiles`
leaves them `undefined`. -/
structure ProcessingResult where
  success : Bool
  error : Option String
  processingTimeMs : Option Nat
  fileSize : Option Nat
deriving Repr, DecidableEq

/-- The value returned by `readHtmlAndMetadata` (src/unnamed/part_002),
together with the `skippedCount` counter it logs. -/
structure ReadResult where
  results : List FileContent
  newlyProcessedFiles : List (String × String)
  processingResults : List (String × ProcessingResult)
  skippedCount : Nat
deriving Repr, DecidableEq

/-- The host capabilities `readHtmlAndMetadata` touches: `fetch` is
`s3Service.getFileContent` (content, or the message of the thrown error)
and `duration` is the `Date.now()` wall-clock delta measured around the
fetch of each key. -/
structure RunEnv where
  fetch : String → Except String String
  duration : String → Nat

/-- The skip test
`processedFiles[fileKey] && processedFiles[fileKey] === lastModified`:
the first conjunct is JS truthiness of the stored string (absent keys read
as `undefined`, hence falsy). -/
def skipCheck (stored : Option String) (lastModified : String) : Bool :=
  match stored with
  | some s => (!(s == "")) && s == lastModified
  | none => false

/-- The file filter of `readHtmlAndMetadata`: only keys ending in the HTML
or the metadata filename are considered. -/
def isTargetKey (k : String) : Bool :=
  strEndsWith k ("/" ++ htmlFileName) || strEndsWith k ("/" ++ metadataFileName)

/-- The body of the `for (const file of files)` loop of
`readHtmlAndMetadata` (src/unnamed/part_002 lines 16-74): skip an
unchanged, already-ledgered object; otherwise fetch it, staging a ledger
entry and a processing result on success and only a processing result
(status failed) on a fetch error. -/
def processFile (env : RunEnv) (processedFiles : List (String × String))
    (st : ReadResult) (file : S3Object) : ReadResult :=
  if isTargetKey file.Key then
    let fileKey := file.Key
    let lastModified := file.lastModifiedISO
    if skipCheck (jsGet processedFiles fileKey) lastModified then
      { st with skippedCount := st.skippedCount + 1 }
    else
      match env.fetch fileKey with
      | .ok content =>
        { st with
          results := st.results ++ [{
            key := fileKey
            type := if strEndsWith fileKey ("/" ++ htmlFileName) then "html"
                    else "metadata"
            lastModified := lastModified
            content := content }]
          newlyProcessedFiles := jsSet st.newlyProcessedFiles fileKey lastModified
          processingResults := jsSet st.processingResults fileKey
            { success := true
              error := none
              processingTimeMs := some (env.duration fileKey)
              fileSize := some file.Size } }
      | .error msg =>
        { st with
          processingResults := jsSet st.processingResults fileKey
            { success := false
              error := some (if msg == "" then "Unknown error" else msg)
              processingTimeMs := some (env.duration fileKey)
              fileSize := some file.Size } }
  else st

/-- The whole `readHtmlAndMetadata(files, processedFiles)` pass
(src/unnamed/part_002). -/
def readHtmlAndMetadata (env : RunEnv) (files : List S3Object)
    (processedFiles : List (String × String)) : ReadResult :=
  files.foldl (processFile env processedFiles) ⟨[], [], [], 0⟩

/-- One `html` / `metadata` / `other` sub-record as `saveProcessedFiles`
builds it (src/src/models/processedFiles.js lines 112-120). -/
structure SubRecord where
  path : String
  lastModified : String
  lastModifiedDate : JsDate
  processingTimeMs : Option Nat
  status : String
  error : Option String
  fileSize : Option Nat
deriving Repr, DecidableEq

/-- One slot of the `filesByPair` accumulator of `saveProcessedFiles`: the
`files` object of the JS pair is flattened into the three possible
`fileType` fields. -/
structure PairEntry where
  pair_id : String
  domain : String
  hash : String
  html : Option SubRecord := none
  metadata : Option SubRecord := none
  other : Option SubRecord := none
  processedAt : Int
deriving Repr, DecidableEq

/-- One ledger document as `saveProcessedFiles` upserts it, keyed by
`pair_id` (src/src/models/processedFiles.js lines 124-133). -/
structure LedgerDoc where
  pair_id : String
  domain : String
  hash : String
  processedAt : Int
  html : Option SubRecord
  metadata : Option SubRecord
  hasBoth : Bool
  status : String
deriving Repr, DecidableEq

/-- The `getOverallStatus(pair)` function
(src/src/services/fileProcessor.js lines 67-84), on the flattened pair
entry. -/
def getOverallStatus (pair : PairEntry) : String :=
  if pair.html.isNone && pair.metadata.isNone then "unknown"
  else
    let htmlStatus := match pair.html with
      | some r => r.status
      | none => "missing"
    let metadataStatus := match pair.metadata with
      | some r => r.status
      | none => "missing"
    if htmlStatus == "failed" || metadataStatus == "failed" then "failed"
    else if htmlStatus == "missing" || metadataStatus == "missing" then
      "incomplete"
    else "success"

/-- The `fileType` classification of `saveProcessedFiles`: by suffix of the
fourth path segment. -/
def fileTypeOf (fileName : String) : String :=
  if strEndsWith fileName ".html" then "html"
  else if strEndsWith fileName ".json" then "metadata"
  else "other"

/-- Field update `pair.files[fileType] = rec` on the flattened pair. -/
def setFileOfType (pair : PairEntry) (fileType : String) (rec : SubRecord) :
    PairEntry :=
  if fileType == "html" then { pair with html := some rec }
  else if fileType == "metadata" then { pair with metadata := some rec }
  else { pair with other := some rec }

/-- The `domain/hash` pair identity a storage key is bucketed under by
`saveProcessedFiles` (`keyParts[1] + "/" + keyParts[2]`). -/
def keyPairId (key : String) : String :=
  (jsSplit key '/').getD 1 "" ++ "/" ++ (jsSplit key '/').getD 2 ""

/-- The file-type classification a storage key receives in
`saveProcessedFiles`, by suffix of `keyParts[3]`. -/
def keyFileType (key : String) : String :=
  fileTypeOf ((jsSplit key '/').getD 3 "")

/-- The sub-record `saveProcessedFiles` builds for one
`[key, lastModified]` entry: the run's processing result for the key (or
the `{success: true, error: null}` default) determines the status and
error fields. -/
def subRecordFor (parseDate : String → Option Int)
    (processingResults : List (String × ProcessingResult))
    (kv : String × String) : SubRecord :=
  let result := match jsGet processingResults kv.1 with
    | some r => r
    | none =>
      { success := true, error := none, processingTimeMs := none,
        fileSize := none }
  { path := kv.1
    lastModified := kv.2
    lastModifiedDate := newDateOfString parseDate kv.2
    processingTimeMs := result.processingTimeMs
    status := if result.success then "success" else "failed"
    error := result.error
    fileSize := result.fileSize }

/-- The `filesByPair[pair_id]` slot an entry is merged into: the existing
slot if the pair was already seen this pass, else a fresh pair record
stamped with the `new Date()` wall clock `now`. -/
def pairSlot (acc : List (String × PairEntry)) (key : String) (now : Int) :
    PairEntry :=
  match jsGet acc (keyPairId key) with
  | some p => p
  | none =>
    { pair_id := keyPairId key
      domain := (jsSplit key '/').getD 1 ""
      hash := (jsSplit key '/').getD 2 ""
      processedAt := now }

/-- The first-pass loop body of `saveProcessedFiles`
(src/src/models/processedFiles.js lines 78-121): keys with fewer than four
`/`-separated parts are dropped; otherwise the key's sub-record is stored
under its pair and file type. -/
def addFileToPairs (parseDate : String → Option Int)
    (processingResults : List (String × ProcessingResult)) (now : Int)
    (acc : List (String × PairEntry)) (kv : String × String) :
    List (String × PairEntry) :=
  if (jsSplit kv.1 '/').length < 4 then acc
  else
    jsSet acc (keyPairId kv.1)
      (setFileOfType (pairSlot acc kv.1 now) (keyFileType kv.1)
        (subRecordFor parseDate processingResults kv))

/-- The complete first pass of `saveProcessedFiles` over
`Object.entries(processedFiles)`. -/
def buildFilesByPair (parseDate : String → Option Int)
    (processedFiles : List (String × String))
    (processingResults : List (String × ProcessingResult)) (now : Int) :
    List (String × PairEntry) :=
  processedFiles.foldl (addFileToPairs parseDate processingResults now) []

/-- The document a pair entry is turned into for the bulk upsert
(src/src/models/processedFiles.js lines 124-133). -/
def mkLedgerDoc (pair : PairEntry) : LedgerDoc :=
  { pair_id := pair.pair_id
    domain := pair.domain
    hash := pair.hash
    processedAt := pair.processedAt
    html := pair.html
    metadata := pair.metadata
    hasBoth := pair.html.isSome && pair.metadata.isSome
    status := getOverallStatus pair }

/-- The full pure content of `saveProcessedFiles`: the list of documents
submitted to the bulk upsert. -/
def buildLedgerDocs (parseDate : String → Option Int)
    (processedFiles : List (String × String))
    (processingResults : List (String × ProcessingResult)) (now : Int) :
    List LedgerDoc :=
  (buildFilesByPair parseDate processedFiles processingResults now).map
    (fun p => mkLedgerDoc p.2)

/-- Effect of the bulk `updateOne`/`$set`-full-document/upsert operations on
the ledger collection, modelled as a map from `pair_id` to the stored
document: each operation replaces (or inserts) the whole row for its
`pair_id`. -/
def applyUpsert (db : List (String × LedgerDoc)) (docs : List LedgerDoc) :
    List (String × LedgerDoc) :=
  docs.foldl (fun acc doc => jsSet acc doc.pair_id doc) db

/-- The flattening loop of `getProcessedFiles`
(src/src/models/processedFiles.js lines 25-35): every `html`/`metadata`
sub-record of every ledger row with a truthy path and timestamp becomes one
`path -> lastModified` binding. -/
def flattenLedger (pairs : List LedgerDoc) : List (String × String) :=
  pairs.foldl
    (fun m pair =>
      let m := match pair.html with
        | some h =>
          if !(h.path == "") && !(h.lastModified == "") then
            jsSet m h.path h.lastModified
          else m
        | none => m
      match pair.metadata with
      | some md =>
        if !(md.path == "") && !(md.lastModified == "") then
          jsSet m md.path md.lastModified
        else m
      | none => m)
    []

/-- A sub-record originates in the current run's map of processed files:
some entry of this run carries its path, with at least four path parts and
the matching file type and pair identity. -/
def SubFromRun (processedFiles : List (String × String))
    (pid ftype : String) (r : SubRecord) : Prop :=
  ∃ e ∈ processedFiles, e.1 = r.path ∧ 4 ≤ (jsSplit e.1 '/').length ∧
    keyFileType e.1 = ftype ∧ keyPairId e.1 = pid

/-- Invariant of every slot of the `filesByPair` accumulator: the stored
pair carries its own key as `pair_id`, and each present `html`/`metadata`
sub-record has status `success` or `failed` and originates in the current
run's processed-files map. -/
def EntryInv (processedFiles : List (String × String))
    (kv : String × PairEntry) : Prop :=
  kv.2.pair_id = kv.1 ∧
  (∀ r, kv.2.html = some r → (r.status = "success" ∨ r.status = "failed") ∧
    SubFromRun processedFiles kv.1 "html" r) ∧
  (∀ r, kv.2.metadata = some r →
    (r.status = "success" ∨ r.status = "failed") ∧
    SubFromRun processedFiles kv.1 "metadata" r)

/-- Test used by the specification rule: does an optional sub-record carry
status `failed`? -/
def subFailed : Option SubRecord → Bool
  | some r => r.status == "failed"
  | none => false

/-- Overall status as the specification words it: any sub-record failed
gives `failed`; otherwise a missing sub-record gives `incomplete`;
otherwise `success`; and `unknown` exactly when there are no sub-records
at all. -/
def specOverallStatus (pair : PairEntry) : String :=
  if pair.html.isNone && pair.metadata.isNone then "unknown"
  else if subFailed pair.html || subFailed pair.metadata then "failed"
  else if pair.html.isNone || pair.metadata.isNone then "incomplete"
  else "success"

/-- A run environment in which fetching the metadata object throws while
the HTML object downloads fine. -/
def failedFetchEnv : RunEnv :=
  ⟨fun k => if k == "/ex.com/h1/metadata.json" then Except.error "boom"
    else Except.ok "body", fun _ => 5⟩

/-- A listing holding one complete pair, neither object ledgered yet. -/
def failedFetchFiles : List S3Object :=
  [⟨"/ex.com/h1/page.html", 10, "t1"⟩,
   ⟨"/ex.com/h1/metadata.json", 20, "t2"⟩]

/-- The fetch pass over `failedFetchFiles` with the failing environment. -/
def failedFetchRun : ReadResult :=
  readHtmlAndMetadata failedFetchEnv failedFetchFiles []

/-- A crawler metadata document, restricted to the three essential fields
`extractMetadata` inspects; `none` models an absent (`undefined`) field,
while a present field carries any JSON scalar. -/
structure MetaObj where
  url : Option JsVal := none
  crawl_time : Option JsVal := none
  depth : Option JsVal := none
deriving Repr, DecidableEq

/-- The record `extractMetadata` returns: the essential fields that were
present, plus the derived `crawl_datetime`. -/
structure Extracted where
  url : Option JsVal := none
  crawl_time : Option JsVal := none
  depth : Option JsVal := none
  crawl_datetime : Option JsDate := none
deriving Repr, DecidableEq

/-- The `extractMetadata(metadata)` function (src/unnamed/part_000 lines
51-80): fail on a missing object or when none of `url`/`crawl_time`/`depth`
is present; copy the present essential fields; then, when `crawl_time` is
truthy, derive `crawl_datetime` with `new Date(...)`.  The source wraps
that derivation in try/catch, but `new Date` on a string returns the
Invalid Date object instead of throwing, so the catch is unreachable and
the field is always assigned. -/
def extractMetadata (parseDate : String → Option Int)
    (metadata : Option MetaObj) : Option Extracted :=
  match metadata with
  | none => none
  | some m =>
    if m.url.isSome || m.crawl_time.isSome || m.depth.isSome then
      let base : Extracted :=
        { url := m.url, crawl_time := m.crawl_time, depth := m.depth }
      some (match m.crawl_time with
        | some v =>
          if v.truthy then
            { base with crawl_datetime := some (newDateOfVal parseDate v) }
          else base
        | none => base)
    else none

/-- The result of the external Readability extraction capability, as
`createArticleObject` consumes it (`title` may be `null`; an absent
`isPotentiallyEmpty` flag reads as `false` through the `|| false`
coercion). -/
structure Parsed where
  title : Option String
  excerpt : Option String
  textContent : String
  isPotentiallyEmpty : Bool
deriving Repr, DecidableEq

/-- One `processedContent[groupKey]` slot handed to
`createArticleObject`. -/
structure ContentData where
  domain : String
  hash : String
  metadata : Option MetaObj
  html : Option String
  parsed : Option Parsed
deriving Repr, DecidableEq

/-- The JS coercion `v || ""` applied to an optional metadata field. -/
def jsOrEmpty : Option JsVal → JsVal
  | some v => if v.truthy then v else .str ""
  | none => .str ""

/-- The article document assembled per pair. -/
structure Article where
  id : String
  domain : String
  hash : String
  title : Option String
  excerpt : String
  content : String
  contentLength : Nat
  isPotentiallyEmpty : Bool
  url : JsVal
  crawl_time : JsVal
  crawl_datetime : Option JsDate
  depth : JsVal
deriving Repr, DecidableEq

/-- The `createArticleObject(data)` function
(src/src/services/fileProcessor.js lines 91-113): null out when metadata
or the parsed extraction result is missing, or when essential-metadata
extraction fails; otherwise build the article record.  A `Date` object is
always truthy, so `metadata.crawl_datetime || null` passes the derived
date through unchanged. -/
def createArticleObject (parseDate : String → Option Int)
    (data : ContentData) : Option Article :=
  match data.metadata, data.parsed with
  | some _, some p =>
    match extractMetadata parseDate data.metadata with
    | none => none
    | some md =>
      some
        { id := data.domain ++ "/" ++ data.hash
          domain := data.domain
          hash := data.hash
          title := p.title
          excerpt := p.excerpt.getD ""
          content := p.textContent
          contentLength := p.textContent.length
          isPotentiallyEmpty := p.isPotentiallyEmpty
          url := jsOrEmpty md.url
          crawl_time := jsOrEmpty md.crawl_time
          crawl_datetime := md.crawl_datetime
          depth := jsOrEmpty md.depth }
  | _, _ => none

/-- A metadata object whose `crawl_time` is present but does not parse as
a date (under a host parser rejecting it). -/
def unparseableCrawlMeta : MetaObj :=
  { crawl_time := some (.str "not-a-date") }

/-- The map-building halves of `checkExistingArticles`
(src/src/models/articles.js lines 31-39): first every queried id is marked
`false`, then every id the query returned is overwritten to `true`. -/
def checkExistingCore (articleIds existing : List String) :
    List (String × Bool) :=
  existing.foldl (fun m a => jsSet m a true)
    (articleIds.foldl (fun m a => jsSet m a false) [])

/-- The `checkExistingArticles(articleIds)` function
(src/src/models/articles.js lines 9-55) over an abstract bulk existence
query `dbFind` (the `find {_id ∈ ids}` projection): an empty id list or a
thrown query error returns the empty map. -/
def checkExistingArticles
    (dbFind : List String → Except String (List String))
    (articleIds : List String) : List (String × Bool) :=
  if articleIds.isEmpty then []
  else
    match dbFind articleIds with
    | .error _ => []
    | .ok existingArticles => checkExistingCore articleIds existingArticles

/-- The semantics of the Mongo bulk existence query against a persisted
set of article ids: it returns the persisted ids among those asked for. -/
def mongoFind (persisted : List String) :
    List String → Except String (List String) :=
  fun ids => .ok (persisted.filter (fun a => ids.contains a))

/-- Effect of `saveArticles` on the set of persisted identities: the bulk
`_id`-keyed upsert makes each written article's id persistent (keeping an
already-present id as is). -/
def saveArticlesIds (persisted : List String) (articles : List Article) :
    List String :=
  articles.foldl
    (fun st a => if st.contains a.id then st else st ++ [a.id]) persisted

/-- Outcome of one reconciler pass (src/src/index.js lines 816-828 plus
the save): the new/skipped partition and the persisted ids afterwards. -/
structure ReconcilerRun where
  newArticles : List Article
  skippedArticles : List Article
  persistedAfter : List String
deriving Repr, DecidableEq

/-- One reconciler pass over an abstract existence query: check existing
ids in bulk, split candidates into new (identity absent or unknown) and
skipped (identity present), save only the new ones. -/
def runReconcilerWith (dbFind : List String → Except String (List String))
    (persisted : List String) (candidates : List Article) : ReconcilerRun :=
  let existingMap :=
    checkExistingArticles dbFind (candidates.map (fun a => a.id))
  let newArticles :=
    candidates.filter (fun a => !((jsGet existingMap a.id).getD false))
  { newArticles := newArticles
    skippedArticles :=
      candidates.filter (fun a => (jsGet existingMap a.id).getD false)
    persistedAfter := saveArticlesIds persisted newArticles }

/-- One reconciler pass against the real Mongo existence query. -/
def runReconciler (persisted : List String) (candidates : List Article) :
    ReconcilerRun :=
  runReconcilerWith (mongoFind persisted) persisted candidates

/-- One member file of a hash group, as `groupFilesByHash` stores it. -/
structure GroupFile where
  key : String
  filename : String
  size : Nat
  lastModified : String
deriving Repr, DecidableEq

/-- One `domain/contentHash` group.  The classifier flags are `false`
until `identifyBrokenLinks` assigns them (matching the JS object where
they are `undefined`, hence falsy, before assignment). -/
structure HashGroup where
  domain : String
  hash : String
  files : List GroupFile
  isBroken : Bool := false
  isComplete : Bool := false
deriving Repr, DecidableEq

/-- The `groupFilesByHash(files)` function
(src/src/services/fileProcessor.js lines 8-39): paths with fewer than
three `/`-separated parts are silently dropped; the rest are bucketed by
`domain/hash`, remembering each file's fourth path part (or `""`) as its
filename. -/
def groupFilesByHash (files : List S3Object) : List (String × HashGroup) :=
  files.foldl
    (fun grouped file =>
      let pathParts := jsSplit file.Key '/'
      if 3 ≤ pathParts.length then
        let domain := pathParts.getD 1 ""
        let hash := pathParts.getD 2 ""
        let filename := pathParts.getD 3 ""
        let groupKey := domain ++ "/" ++ hash
        let g := match jsGet grouped groupKey with
          | some g => g
          | none => { domain := domain, hash := hash, files := [] }
        jsSet grouped groupKey
          { g with files := g.files ++
              [⟨file.Key, filename, file.Size, file.lastModifiedISO⟩] }
      else grouped)
    []

/-- The `identifyBrokenLinks(groupedFiles)` function
(src/src/services/fileProcessor.js lines 46-60): for each group, test
membership of the two fixed filenames and set
`isBroken = hasHtml && !hasMetadata`,
`isComplete = hasHtml && hasMetadata`. -/
def identifyBrokenLinks (grouped : List (String × HashGroup)) :
    List (String × HashGroup) :=
  grouped.map (fun kv =>
    let filenames := kv.2.files.map (fun f => f.filename)
    (kv.1,
      { kv.2 with
        isBroken := filenames.contains htmlFileName &&
          !(filenames.contains metadataFileName)
        isComplete := filenames.contains htmlFileName &&
          filenames.contains metadataFileName }))

/-- Helper fact: `jsSet` never returns the unchanged list when the set key
is fresh or the value differs, because it either grows the list or rewrites
the hit slot; for the proofs below the length argument suffices. -/
theorem jsSet_length {α : Type} (m : List (String × α)) (k : String) (v : α) :
    (jsSet m k v).length = if m.any (fun p => p.1 == k) then m.length
      else m.length + 1 := by
  unfold jsSet
  split <;> simp

/-- The skip test succeeds exactly on an exact-key, string-equal-timestamp
hit, provided the incoming timestamp string is nonempty (which every
`toISOString()` rendering is). -/
theorem skipCheck_iff (stored : Option String) (lm : String) (hlm : lm ≠ "") :
    skipCheck stored lm = true ↔ stored = some lm := by
  cases stored with
  | none => simp [skipCheck]
  | some s =>
    simp only [skipCheck, Bool.and_eq_true, beq_iff_eq, Bool.not_eq_true',
      beq_eq_false_iff_ne, ne_eq, Option.some.injEq]
    constructor
    · rintro ⟨_, rfl⟩; rfl
    · rintro rfl; exact ⟨hlm, rfl⟩

/-- C1.  For a listed object whose key ends with the HTML or metadata
filename and whose last-modified ISO string is nonempty, the loop body
skips the object — leaving the results, the staged ledger entries and the
processing results untouched and bumping only the skip counter — iff the
ledger's flattened path-to-timestamp map holds the object's exact key with
a string-equal timestamp; an absent entry or a differing value takes the
fetch branch instead. -/
theorem fetch_skips_iff_ledger_hit (env : RunEnv)
    (processedFiles : List (String × String)) (st : ReadResult)
    (file : S3Object) (htarget : isTargetKey file.Key = true)
    (hiso : file.lastModifiedISO ≠ "") :
    processFile env processedFiles st file =
      { st with skippedCount := st.skippedCount + 1 } ↔
    jsGet processedFiles file.Key = some file.lastModifiedISO := by
  constructor
  · intro h
    by_contra hne
    have hskip : skipCheck (jsGet processedFiles file.Key)
        file.lastModifiedISO = false := by
      cases hsc : skipCheck (jsGet processedFiles file.Key)
          file.lastModifiedISO with
      | false => rfl
      | true => exact absurd ((skipCheck_iff _ _ hiso).mp hsc) hne
    have hcount : (processFile env processedFiles st file).skippedCount =
        st.skippedCount := by
      unfold processFile
      rw [htarget]
      simp only [if_true]
      rw [hskip]
      simp only [Bool.false_eq_true, if_false]
      cases env.fetch file.Key <;> rfl
    rw [h] at hcount
    simp at hcount
  · intro h
    have hskip : skipCheck (jsGet processedFiles file.Key)
        file.lastModifiedISO = true := (skipCheck_iff _ _ hiso).mpr h
    unfold processFile
    rw [htarget]
    simp only [if_true]
    rw [hskip]
    simp

/-- Witness for C1 at a concrete input: the map holds the exact key with
the identical timestamp, and the step is the pure skip. -/
theorem fetch_skips_iff_ledger_hit_witness :
    (isTargetKey "/ex.com/h1/page.html" = true) ∧
    ("2024-01-01T00:00:00.000Z" ≠ "") ∧
    (processFile ⟨fun _ => .ok "body", fun _ => 0⟩
        [("/ex.com/h1/page.html", "2024-01-01T00:00:00.000Z")]
        ⟨[], [], [], 0⟩
        ⟨"/ex.com/h1/page.html", 10, "2024-01-01T00:00:00.000Z"⟩ =
      { results := [], newlyProcessedFiles := [], processingResults := [],
        skippedCount := 1 } ↔
      jsGet [("/ex.com/h1/page.html", "2024-01-01T00:00:00.000Z")]
        "/ex.com/h1/page.html" = some "2024-01-01T00:00:00.000Z") :=
  ⟨by decide, by decide,
    fetch_skips_iff_ledger_hit ⟨fun _ => .ok "body", fun _ => 0⟩
      [("/ex.com/h1/page.html", "2024-01-01T00:00:00.000Z")]
      ⟨[], [], [], 0⟩
      ⟨"/ex.com/h1/page.html", 10, "2024-01-01T00:00:00.000Z"⟩
      (by decide) (by decide)⟩

/-- Reading back the key just set returns the new value. -/
theorem jsGet_jsSet_self {α : Type} (m : List (String × α)) (k : String)
    (v : α) : jsGet (jsSet m k v) k = some v := by
  unfold jsSet
  split
  case isTrue h =>
    induction m with
    | nil => simp at h
    | cons p ps ih =>
      by_cases hpk : p.1 == k
      · simp [jsGet, List.find?, hpk]
      · simp only [List.any_cons, hpk, Bool.false_or] at h
        simp only [List.map_cons, hpk, if_neg, ite_false]
        simpa [jsGet, List.find?, hpk] using ih h
  case isFalse h =>
    induction m with
    | nil => simp [jsGet, List.find?]
    | cons p ps ih =>
      simp only [List.any_cons, Bool.or_eq_true, not_or] at h
      have hpk : (p.1 == k) = false := by
        cases hx : p.1 == k
        · rfl
        · exact absurd hx h.1
      simp only [List.cons_append]
      simpa [jsGet, List.find?, hpk] using ih h.2

/-- Finding a key other than `k'` is unaffected by the overwrite pass of
`jsSet`. -/
theorem find?_map_overwrite {α : Type} (k k' : String) (v : α)
    (hne : k ≠ k') (ps : List (String × α)) :
    (ps.map (fun p => if p.1 == k' then (k', v) else p)).find?
      (fun p => p.1 == k) = ps.find? (fun p => p.1 == k) := by
  induction ps with
  | nil => rfl
  | cons p ps ih =>
    by_cases hpk : p.1 = k'
    · have hb : (p.1 == k') = true := beq_iff_eq.mpr hpk
      have h1 : (k' == k) = false := by simp [Ne.symm hne]
      have h2 : (p.1 == k) = false := by rw [hpk]; exact h1
      simp only [List.map_cons, hb, ite_true, List.find?, h1, h2]
      exact ih
    · have hb : (p.1 == k') = false := by simp [hpk]
      simp only [List.map_cons, hb, Bool.false_eq_true, ite_false, List.find?]
      cases hp2 : (p.1 == k)
      · simp only [hp2]; exact ih
      · simp only [hp2]

/-- Finding a key other than `k'` ignores an appended `(k', v)` binding. -/
theorem find?_append_single {α : Type} (k k' : String) (v : α)
    (hne : k ≠ k') (m : List (String × α)) :
    (m ++ [(k', v)]).find? (fun p => p.1 == k) =
      m.find? (fun p => p.1 == k) := by
  induction m with
  | nil =>
    have h1 : (k' == k) = false := by simp [Ne.symm hne]
    simp [List.find?, h1]
  | cons p ps ih =>
    simp only [List.cons_append, List.find?]
    cases hp2 : (p.1 == k)
    · simp only [hp2]; exact ih
    · simp only [hp2]

/-- Reading any other key is unaffected by a `jsSet`. -/
theorem jsGet_jsSet_ne {α : Type} (m : List (String × α)) (k k' : String)
    (v : α) (hne : k ≠ k') : jsGet (jsSet m k' v) k = jsGet m k := by
  unfold jsGet jsSet
  split
  · rw [find?_map_overwrite k k' v hne]
  · rw [find?_append_single k k' v hne]

/-- A successful `jsGet` exhibits a binding of the list. -/
theorem jsGet_mem {α : Type} {m : List (String × α)} {k : String} {v : α}
    (h : jsGet m k = some v) : (k, v) ∈ m := by
  unfold jsGet at h
  cases hf : m.find? (fun p => p.1 == k) with
  | none => rw [hf] at h; simp at h
  | some p =>
    rw [hf] at h
    have hmem := List.mem_of_find?_eq_some hf
    have hkey : p.1 = k := by simpa using List.find?_some hf
    simp at h
    have : (k, v) = p := by
      cases p with
      | mk a b => simp only at hkey h ⊢; rw [hkey, h]
    rwa [this]

/-- Every binding of `jsSet m k v` is the new binding or an old one. -/
theorem mem_jsSet {α : Type} {m : List (String × α)} {k : String} {v : α}
    {y : String × α} (h : y ∈ jsSet m k v) : y = (k, v) ∨ y ∈ m := by
  unfold jsSet at h
  split at h
  · rcases List.mem_map.mp h with ⟨p, hp, heq⟩
    by_cases hpk : p.1 == k
    · rw [if_pos hpk] at heq; left; exact heq.symm
    · rw [if_neg hpk] at heq; right; rwa [← heq]
  · rcases List.mem_append.mp h with hm | hnew
    · right; exact hm
    · left; simpa using hnew

/-- A `jsSet` leaves the key list unchanged when the key is present, and
appends the key otherwise. -/
theorem jsSet_keys {α : Type} (m : List (String × α)) (k : String) (v : α) :
    (jsSet m k v).map Prod.fst =
      if m.any (fun p => p.1 == k) then m.map Prod.fst
      else m.map Prod.fst ++ [k] := by
  unfold jsSet
  split
  case isTrue h =>
    rw [List.map_map]
    apply List.map_congr_left
    intro p _
    by_cases hpk : p.1 = k
    · have hb : (p.1 == k) = true := beq_iff_eq.mpr hpk
      simp only [Function.comp_apply, hb, ite_true]
      exact hpk.symm
    · have hb : (p.1 == k) = false := by simp [hpk]
      simp [Function.comp_apply, hb, hpk]
  case isFalse h =>
    simp

/-- Membership-invariant preservation through a left fold, remembering that
every folded element comes from the folded list. -/
theorem foldl_mem_invariant {α β : Type} (P : β → Prop) :
    ∀ (l : List α) (f : List β → α → List β),
      (∀ acc x y, x ∈ l → (∀ z ∈ acc, P z) → y ∈ f acc x → P y) →
      ∀ acc, (∀ z ∈ acc, P z) → ∀ y ∈ l.foldl f acc, P y := by
  intro l
  induction l with
  | nil => intro f hf acc hacc y hy; exact hacc y hy
  | cons x xs ih =>
    intro f hf acc hacc y hy
    exact ih f (fun acc' x' y' hx' => hf acc' x' y' (List.mem_cons_of_mem _ hx'))
      (f acc x) (fun z hz => hf acc x z (List.mem_cons_self _ _) hacc hz) y hy

/-- The sub-record built for an entry has status `success` or `failed`. -/
theorem subRecordFor_status (parseDate : String → Option Int)
    (processingResults : List (String × ProcessingResult))
    (kv : String × String) :
    (subRecordFor parseDate processingResults kv).status = "success" ∨
    (subRecordFor parseDate processingResults kv).status = "failed" := by
  simp only [subRecordFor]
  cases (match jsGet processingResults kv.1 with
    | some r => r
    | none =>
      ({ success := true, error := none, processingTimeMs := none,
         fileSize := none } : ProcessingResult)).success
  · right; rfl
  · left; rfl

/-- The slot an entry is merged into inherits `EntryInv` pieces for the
entry's pair identity. -/
theorem pairSlot_inv (processedFiles : List (String × String))
    (acc : List (String × PairEntry)) (key : String) (now : Int)
    (hacc : ∀ z ∈ acc, EntryInv processedFiles z) :
    (pairSlot acc key now).pair_id = keyPairId key ∧
    (∀ r, (pairSlot acc key now).html = some r →
      (r.status = "success" ∨ r.status = "failed") ∧
      SubFromRun processedFiles (keyPairId key) "html" r) ∧
    (∀ r, (pairSlot acc key now).metadata = some r →
      (r.status = "success" ∨ r.status = "failed") ∧
      SubFromRun processedFiles (keyPairId key) "metadata" r) := by
  unfold pairSlot
  cases hg : jsGet acc (keyPairId key) with
  | some p =>
    have h := hacc (keyPairId key, p) (jsGet_mem hg)
    exact ⟨h.1, h.2.1, h.2.2⟩
  | none =>
    refine ⟨rfl, ?_, ?_⟩ <;> intro r hr <;> simp at hr

/-- Every slot produced by the first pass of `saveProcessedFiles` satisfies
`EntryInv`. -/
theorem buildFilesByPair_inv (parseDate : String → Option Int)
    (processedFiles : List (String × String))
    (processingResults : List (String × ProcessingResult)) (now : Int) :
    ∀ kv ∈ buildFilesByPair parseDate processedFiles processingResults now,
      EntryInv processedFiles kv := by
  unfold buildFilesByPair
  apply foldl_mem_invariant (EntryInv processedFiles) processedFiles
    (addFileToPairs parseDate processingResults now)
    _ [] (by intro z hz; simp at hz)
  intro acc x y hx hacc hy
  unfold addFileToPairs at hy
  by_cases hlen : (jsSplit x.1 '/').length < 4
  · rw [if_pos hlen] at hy
    exact hacc y hy
  · rw [if_neg hlen] at hy
    rcases mem_jsSet hy with rfl | hmem
    · have hslot := pairSlot_inv processedFiles acc x.1 now hacc
      have hstat := subRecordFor_status parseDate processingResults x
      have hfrom : ∀ ft, keyFileType x.1 = ft →
          SubFromRun processedFiles (keyPairId x.1) ft
            (subRecordFor parseDate processingResults x) := by
        intro ft hft
        exact ⟨x, hx, rfl, le_of_not_lt hlen, hft, rfl⟩
      refine ⟨?_, ?_, ?_⟩
      · unfold setFileOfType
        split
        · exact hslot.1
        · split
          · exact hslot.1
          · exact hslot.1
      · intro r hr
        unfold setFileOfType at hr
        split at hr
        next hft =>
          have hr' : some (subRecordFor parseDate processingResults x) =
              some r := hr
          rw [← Option.some.inj hr']
          exact ⟨hstat, hfrom "html" (beq_iff_eq.mp hft)⟩
        next hft =>
          split at hr
          · exact hslot.2.1 r hr
          · exact hslot.2.1 r hr
      · intro r hr
        unfold setFileOfType at hr
        split at hr
        next hft => exact hslot.2.2 r hr
        next hft =>
          split at hr
          next hft2 =>
            have hr' : some (subRecordFor parseDate processingResults x) =
                some r := hr
            rw [← Option.some.inj hr']
            exact ⟨hstat, hfrom "metadata" (beq_iff_eq.mp hft2)⟩
          next hft2 => exact hslot.2.2 r hr
    · exact hacc y hmem

/-- C3.  On every pair assembled during a ledger write, `getOverallStatus`
agrees with the specification rule — failed beats incomplete beats
success — and returns `unknown` exactly when the pair has no sub-records
at all. -/
theorem getOverallStatus_matches_spec (parseDate : String → Option Int)
    (processedFiles : List (String × String))
    (processingResults : List (String × ProcessingResult)) (now : Int)
    (kv : String × PairEntry)
    (hkv : kv ∈ buildFilesByPair parseDate processedFiles processingResults
      now) :
    getOverallStatus kv.2 = specOverallStatus kv.2 ∧
    (getOverallStatus kv.2 = "unknown" ↔
      kv.2.html = none ∧ kv.2.metadata = none) := by
  obtain ⟨-, hh, hm⟩ :=
    buildFilesByPair_inv parseDate processedFiles processingResults now kv hkv
  cases hhtml : kv.2.html with
  | none =>
    cases hmeta : kv.2.metadata with
    | none => simp [getOverallStatus, specOverallStatus, subFailed, hhtml, hmeta]
    | some rm =>
      rcases (hm rm hmeta).1 with hs | hs <;>
        simp [getOverallStatus, specOverallStatus, subFailed, hhtml, hmeta, hs]
  | some rh =>
    cases hmeta : kv.2.metadata with
    | none =>
      rcases (hh rh hhtml).1 with hs | hs <;>
        simp [getOverallStatus, specOverallStatus, subFailed, hhtml, hmeta, hs]
    | some rm =>
      rcases (hh rh hhtml).1 with hs | hs <;>
        rcases (hm rm hmeta).1 with hs2 | hs2 <;>
        simp [getOverallStatus, specOverallStatus, subFailed, hhtml, hmeta,
          hs, hs2]

/-- Witness for C3 at a concrete run: one pair holding both files, statuses
defaulted to success. -/
theorem getOverallStatus_matches_spec_witness :
    ((buildFilesByPair (fun _ => none)
        [("/ex.com/h1/page.html", "t1"), ("/ex.com/h1/metadata.json", "t2")]
        [] 0).getD 0 ("", ⟨"", "", "", none, none, none, 0⟩) ∈
      buildFilesByPair (fun _ => none)
        [("/ex.com/h1/page.html", "t1"), ("/ex.com/h1/metadata.json", "t2")]
        [] 0) ∧
    (getOverallStatus ((buildFilesByPair (fun _ => none)
        [("/ex.com/h1/page.html", "t1"), ("/ex.com/h1/metadata.json", "t2")]
        [] 0).getD 0 ("", ⟨"", "", "", none, none, none, 0⟩)).2 =
      specOverallStatus ((buildFilesByPair (fun _ => none)
        [("/ex.com/h1/page.html", "t1"), ("/ex.com/h1/metadata.json", "t2")]
        [] 0).getD 0 ("", ⟨"", "", "", none, none, none, 0⟩)).2 ∧
    (getOverallStatus ((buildFilesByPair (fun _ => none)
        [("/ex.com/h1/page.html", "t1"), ("/ex.com/h1/metadata.json", "t2")]
        [] 0).getD 0 ("", ⟨"", "", "", none, none, none, 0⟩)).2 = "unknown" ↔
      ((buildFilesByPair (fun _ => none)
        [("/ex.com/h1/page.html", "t1"), ("/ex.com/h1/metadata.json", "t2")]
        [] 0).getD 0 ("", ⟨"", "", "", none, none, none, 0⟩)).2.html = none ∧
      ((buildFilesByPair (fun _ => none)
        [("/ex.com/h1/page.html", "t1"), ("/ex.com/h1/metadata.json", "t2")]
        [] 0).getD 0 ("", ⟨"", "", "", none, none, none, 0⟩)).2.metadata =
        none)) :=
  ⟨by decide,
    getOverallStatus_matches_spec (fun _ => none)
      [("/ex.com/h1/page.html", "t1"), ("/ex.com/h1/metadata.json", "t2")]
      [] 0 _ (by decide)⟩

/-- C5.  Every ledger document built by `saveProcessedFiles` satisfies
`hasBoth == (html != null && metadata != null)`. -/
theorem ledger_hasBoth_invariant (parseDate : String → Option Int)
    (processedFiles : List (String × String))
    (processingResults : List (String × ProcessingResult)) (now : Int)
    (doc : LedgerDoc)
    (hdoc : doc ∈ buildLedgerDocs parseDate processedFiles processingResults
      now) :
    doc.hasBoth = (doc.html.isSome && doc.metadata.isSome) := by
  rcases List.mem_map.mp hdoc with ⟨p, -, rfl⟩
  rfl

/-- Witness for C5 on a concrete run with one complete pair. -/
theorem ledger_hasBoth_invariant_witness :
    ((buildLedgerDocs (fun _ => none)
        [("/ex.com/h1/page.html", "t1"), ("/ex.com/h1/metadata.json", "t2")]
        [] 0).getD 0 ⟨"", "", "", 0, none, none, false, ""⟩ ∈
      buildLedgerDocs (fun _ => none)
        [("/ex.com/h1/page.html", "t1"), ("/ex.com/h1/metadata.json", "t2")]
        [] 0) ∧
    ((buildLedgerDocs (fun _ => none)
        [("/ex.com/h1/page.html", "t1"), ("/ex.com/h1/metadata.json", "t2")]
        [] 0).getD 0 ⟨"", "", "", 0, none, none, false, ""⟩).hasBoth =
      (((buildLedgerDocs (fun _ => none)
        [("/ex.com/h1/page.html", "t1"), ("/ex.com/h1/metadata.json", "t2")]
        [] 0).getD 0 ⟨"", "", "", 0, none, none, false, ""⟩).html.isSome &&
      ((buildLedgerDocs (fun _ => none)
        [("/ex.com/h1/page.html", "t1"), ("/ex.com/h1/metadata.json", "t2")]
        [] 0).getD 0 ⟨"", "", "", 0, none, none, false, ""⟩).metadata.isSome) :=
  ⟨by decide,
    ledger_hasBoth_invariant (fun _ => none)
      [("/ex.com/h1/page.html", "t1"), ("/ex.com/h1/metadata.json", "t2")]
      [] 0 _ (by decide)⟩

/-- Property preservation through a left fold. -/
theorem foldl_preserve {α β : Type} (P : β → Prop) (f : β → α → β)
    (hf : ∀ acc x, P acc → P (f acc x)) :
    ∀ (l : List α) (acc : β), P acc → P (l.foldl f acc) := by
  intro l
  induction l with
  | nil => intro acc hacc; exact hacc
  | cons x xs ih => intro acc hacc; exact ih (f acc x) (hf acc x hacc)

/-- A `jsSet` preserves distinctness of the keys. -/
theorem jsSet_keys_nodup {α : Type} (m : List (String × α)) (k : String)
    (v : α) (h : (m.map Prod.fst).Nodup) :
    ((jsSet m k v).map Prod.fst).Nodup := by
  rw [jsSet_keys]
  split
  · exact h
  next hany =>
    have hk : k ∉ m.map Prod.fst := by
      intro hmem
      rcases List.mem_map.mp hmem with ⟨p, hp, rfl⟩
      exact hany (List.any_eq_true.mpr ⟨p, hp, by simp⟩)
    exact List.Nodup.append h (List.nodup_singleton k)
      (by intro a ha hb; simp at hb; rw [hb] at ha; exact hk ha)

/-- The first pass of `saveProcessedFiles` produces pairwise distinct
pair identities. -/
theorem buildFilesByPair_keys_nodup (parseDate : String → Option Int)
    (processedFiles : List (String × String))
    (processingResults : List (String × ProcessingResult)) (now : Int) :
    ((buildFilesByPair parseDate processedFiles processingResults now).map
      Prod.fst).Nodup := by
  unfold buildFilesByPair
  apply foldl_preserve (fun acc => (acc.map Prod.fst).Nodup)
    (addFileToPairs parseDate processingResults now) _ processedFiles []
    (by simp)
  intro acc x hacc
  unfold addFileToPairs
  split
  · exact hacc
  · exact jsSet_keys_nodup acc _ _ hacc

/-- The documents submitted to the bulk upsert carry the keys of the first
pass as their `pair_id` fields. -/
theorem buildLedgerDocs_pairIds (parseDate : String → Option Int)
    (processedFiles : List (String × String))
    (processingResults : List (String × ProcessingResult)) (now : Int) :
    (buildLedgerDocs parseDate processedFiles processingResults now).map
        LedgerDoc.pair_id =
      (buildFilesByPair parseDate processedFiles processingResults now).map
        Prod.fst := by
  unfold buildLedgerDocs
  rw [List.map_map]
  apply List.map_congr_left
  intro p hp
  exact (buildFilesByPair_inv parseDate processedFiles processingResults now
    p hp).1

/-- Unfolding equation of `applyUpsert`. -/
theorem applyUpsert_cons (db : List (String × LedgerDoc)) (d : LedgerDoc)
    (rest : List LedgerDoc) :
    applyUpsert db (d :: rest) = applyUpsert (jsSet db d.pair_id d) rest :=
  rfl

/-- A bulk upsert leaves rows untouched whose `pair_id` is not among the
written documents. -/
theorem jsGet_applyUpsert_not_mem (docs : List LedgerDoc) (pid : String)
    (h : pid ∉ docs.map LedgerDoc.pair_id) :
    ∀ db, jsGet (applyUpsert db docs) pid = jsGet db pid := by
  induction docs with
  | nil => intro db; rfl
  | cons d rest ih =>
    intro db
    have hne : pid ≠ d.pair_id := by
      intro e; exact h (by simp [e])
    have hrest : pid ∉ rest.map LedgerDoc.pair_id := by
      intro e; exact h (by simp [e])
    rw [applyUpsert_cons, ih hrest, jsGet_jsSet_ne db pid d.pair_id d hne]

/-- After a bulk upsert of documents with pairwise distinct `pair_id`s,
each written row equals its document exactly, whatever the previous state
of the collection held. -/
theorem jsGet_applyUpsert_mem (docs : List LedgerDoc)
    (hnd : (docs.map LedgerDoc.pair_id).Nodup) (doc : LedgerDoc)
    (hdoc : doc ∈ docs) :
    ∀ db, jsGet (applyUpsert db docs) doc.pair_id = some doc := by
  induction docs with
  | nil => cases hdoc
  | cons d rest ih =>
    intro db
    rcases List.mem_cons.mp hdoc with rfl | hmem
    · have hnotin : doc.pair_id ∉ rest.map LedgerDoc.pair_id :=
        (List.nodup_cons.mp hnd).1
      rw [applyUpsert_cons,
        jsGet_applyUpsert_not_mem rest doc.pair_id hnotin,
        jsGet_jsSet_self]
    · rw [applyUpsert_cons]
      exact ih (List.nodup_cons.mp hnd).2 hmem (jsSet db d.pair_id d)

/-- C9.  A ledger upsert writes, for each assembled document, exactly that
document — the `html` and `metadata` fields are the sub-records built from
this run's files, each present sub-record originating in a current-run
entry of the matching type and pair, and `none` otherwise — so a
sub-record stored by a previous run but not re-fetched now is not carried
forward: the new row equals the update document regardless of the prior
row. -/
theorem ledger_upsert_replaces_row (db : List (String × LedgerDoc))
    (parseDate : String → Option Int)
    (processedFiles : List (String × String))
    (processingResults : List (String × ProcessingResult)) (now : Int)
    (doc : LedgerDoc)
    (hdoc : doc ∈ buildLedgerDocs parseDate processedFiles processingResults
      now) :
    jsGet (applyUpsert db
        (buildLedgerDocs parseDate processedFiles processingResults now))
      doc.pair_id = some doc ∧
    (∀ r, doc.html = some r →
      SubFromRun processedFiles doc.pair_id "html" r) ∧
    (∀ r, doc.metadata = some r →
      SubFromRun processedFiles doc.pair_id "metadata" r) := by
  have hnd : ((buildLedgerDocs parseDate processedFiles processingResults
      now).map LedgerDoc.pair_id).Nodup := by
    rw [buildLedgerDocs_pairIds]
    exact buildFilesByPair_keys_nodup parseDate processedFiles
      processingResults now
  refine ⟨jsGet_applyUpsert_mem _ hnd doc hdoc db, ?_, ?_⟩
  · rcases List.mem_map.mp hdoc with ⟨p, hp, rfl⟩
    intro r hr
    have inv := buildFilesByPair_inv parseDate processedFiles
      processingResults now p hp
    have hpid : (mkLedgerDoc p.2).pair_id = p.1 := inv.1
    rw [hpid]
    exact (inv.2.1 r hr).2
  · rcases List.mem_map.mp hdoc with ⟨p, hp, rfl⟩
    intro r hr
    have inv := buildFilesByPair_inv parseDate processedFiles
      processingResults now p hp
    have hpid : (mkLedgerDoc p.2).pair_id = p.1 := inv.1
    rw [hpid]
    exact (inv.2.2 r hr).2

/-- Witness for C9: a prior row for `ex.com/h1` holds a metadata
sub-record, the current run re-fetches only the HTML file, and the row
after the upsert is exactly the new document, whose metadata field is
gone. -/
theorem ledger_upsert_replaces_row_witness :
    ((buildLedgerDocs (fun _ => none) [("/ex.com/h1/page.html", "t9")] []
        0).getD 0 ⟨"", "", "", 0, none, none, false, ""⟩ ∈
      buildLedgerDocs (fun _ => none) [("/ex.com/h1/page.html", "t9")] []
        0) ∧
    (jsGet (applyUpsert
        [("ex.com/h1",
          ⟨"ex.com/h1", "ex.com", "h1", 0, none,
            some ⟨"/ex.com/h1/metadata.json", "t2", JsDate.invalid, none,
              "success", none, none⟩, false, "incomplete"⟩)]
        (buildLedgerDocs (fun _ => none) [("/ex.com/h1/page.html", "t9")] []
          0))
      ((buildLedgerDocs (fun _ => none) [("/ex.com/h1/page.html", "t9")] []
        0).getD 0 ⟨"", "", "", 0, none, none, false, ""⟩).pair_id =
      some ((buildLedgerDocs (fun _ => none)
        [("/ex.com/h1/page.html", "t9")] [] 0).getD 0
        ⟨"", "", "", 0, none, none, false, ""⟩) ∧
    (∀ r, ((buildLedgerDocs (fun _ => none)
        [("/ex.com/h1/page.html", "t9")] [] 0).getD 0
        ⟨"", "", "", 0, none, none, false, ""⟩).html = some r →
      SubFromRun [("/ex.com/h1/page.html", "t9")]
        ((buildLedgerDocs (fun _ => none) [("/ex.com/h1/page.html", "t9")]
          [] 0).getD 0 ⟨"", "", "", 0, none, none, false, ""⟩).pair_id
        "html" r) ∧
    (∀ r, ((buildLedgerDocs (fun _ => none)
        [("/ex.com/h1/page.html", "t9")] [] 0).getD 0
        ⟨"", "", "", 0, none, none, false, ""⟩).metadata = some r →
      SubFromRun [("/ex.com/h1/page.html", "t9")]
        ((buildLedgerDocs (fun _ => none) [("/ex.com/h1/page.html", "t9")]
          [] 0).getD 0 ⟨"", "", "", 0, none, none, false, ""⟩).pair_id
        "metadata" r)) :=
  ⟨by decide,
    ledger_upsert_replaces_row
      [("ex.com/h1",
        ⟨"ex.com/h1", "ex.com", "h1", 0, none,
          some ⟨"/ex.com/h1/metadata.json", "t2", JsDate.invalid, none,
            "success", none, none⟩, false, "incomplete"⟩)]
      (fun _ => none) [("/ex.com/h1/page.html", "t9")] [] 0 _ (by decide)⟩

/-- C2.  Evaluation at the failing input: the metadata fetch failure is
captured, with its message, only in the transient `processingResults`; the
other object continues to be processed (no abort); but the failed key is
absent from `newlyProcessedFiles`, and since `saveProcessedFiles` iterates
only over that map, the persisted ledger documents contain no `failed`
sub-record at all — the pair is written with `metadata = null` and status
`incomplete`, contradicting the claim that a failed fetch is recorded in
the persisted ledger as a sub-record with status `failed`. -/
theorem fetch_failure_missing_from_ledger :
    jsGet failedFetchRun.processingResults "/ex.com/h1/metadata.json" =
      some ⟨false, some "boom", some 5, some 20⟩ ∧
    failedFetchRun.results.map FileContent.key = ["/ex.com/h1/page.html"] ∧
    jsGet failedFetchRun.newlyProcessedFiles "/ex.com/h1/metadata.json" =
      none ∧
    buildLedgerDocs (fun _ => none) failedFetchRun.newlyProcessedFiles
        failedFetchRun.processingResults 0 =
      [⟨"ex.com/h1", "ex.com", "h1", 0,
        some ⟨"/ex.com/h1/page.html", "t1", JsDate.invalid, some 5,
          "success", none, some 10⟩,
        none, false, "incomplete"⟩] := by
  decide

/-- Essential-metadata extraction succeeds exactly when at least one of
the `url`/`crawl_time`/`depth` fields is present. -/
theorem extractMetadata_isSome (parseDate : String → Option Int)
    (m : MetaObj) :
    (extractMetadata parseDate (some m)).isSome =
      (m.url.isSome || m.crawl_time.isSome || m.depth.isSome) := by
  simp only [extractMetadata]
  split
  next h => simp only [Option.isSome_some]; symm; simpa using h
  next h =>
    simp only [Option.isSome_none]
    symm
    simpa using h

/-- Boolean characterization of article assembly: an article comes out
exactly when metadata is present, essential extraction succeeds and the
parsed extraction result is present. -/
theorem createArticleObject_isSome (parseDate : String → Option Int)
    (data : ContentData) :
    (createArticleObject parseDate data).isSome =
      (data.metadata.isSome &&
        (extractMetadata parseDate data.metadata).isSome &&
        data.parsed.isSome) := by
  cases hm : data.metadata with
  | none => simp [createArticleObject, hm, extractMetadata]
  | some m =>
    cases hp : data.parsed with
    | none => simp [createArticleObject, hm, hp]
    | some p =>
      unfold createArticleObject
      rw [hm, hp]
      cases he : extractMetadata parseDate (some m) with
      | none => simp [he]
      | some e => simp [he]

/-- C4.  An article is produced for a pair iff the pair's metadata value is
present, carries at least one of the essential `url`/`crawl_time`/`depth`
fields (so essential-metadata extraction succeeds), and the HTML
extraction result is non-null. -/
theorem article_iff_essential_metadata_and_parsed
    (parseDate : String → Option Int) (data : ContentData) :
    (createArticleObject parseDate data).isSome ↔
      (∃ m, data.metadata = some m ∧
        (m.url.isSome ∨ m.crawl_time.isSome ∨ m.depth.isSome)) ∧
      data.parsed.isSome := by
  constructor
  · intro h
    rw [createArticleObject_isSome] at h
    simp only [Bool.and_eq_true] at h
    obtain ⟨⟨hmeta, hext⟩, hparsed⟩ := h
    rcases Option.isSome_iff_exists.mp hmeta with ⟨m, hm⟩
    refine ⟨⟨m, hm, ?_⟩, hparsed⟩
    rw [hm] at hext
    rw [extractMetadata_isSome] at hext
    have := by simpa using hext
    tauto
  · rintro ⟨⟨m, hm, hess⟩, hparsed⟩
    rw [createArticleObject_isSome]
    simp only [Bool.and_eq_true]
    refine ⟨⟨by simp [hm], ?_⟩, hparsed⟩
    rw [hm, extractMetadata_isSome]
    simp only [Bool.or_eq_true]
    tauto

/-- C7 counterexample.  With `crawl_time` present but unparseable,
extraction succeeds — but the resulting record's `crawl_datetime` is not
absent: it holds the Invalid Date value, because `new Date` on a string
returns Invalid Date instead of throwing, so the catch branch never
clears the assignment. -/
theorem crawl_datetime_present_on_parse_failure :
    (extractMetadata (fun _ => none) (some unparseableCrawlMeta)).isSome ∧
    (extractMetadata (fun _ => none) (some unparseableCrawlMeta)).map
        Extracted.crawl_datetime ≠ some none ∧
    (extractMetadata (fun _ => none) (some unparseableCrawlMeta)).map
        Extracted.crawl_datetime = some (some JsDate.invalid) := by
  decide

/-- C7 amended.  When `crawl_time` is present as a nonempty string the
host date parser rejects, essential-metadata extraction still succeeds
(the failure is non-fatal), and the record's `crawl_datetime` is set to
the Invalid Date value rather than left absent. -/
theorem unparseable_crawl_time_nonfatal (parseDate : String → Option Int)
    (m : MetaObj) (s : String) (hct : m.crawl_time = some (.str s))
    (hne : s ≠ "") (hpd : parseDate s = none) :
    ∃ e, extractMetadata parseDate (some m) = some e ∧
      e.crawl_datetime = some JsDate.invalid := by
  have hess : (m.url.isSome || m.crawl_time.isSome || m.depth.isSome)
      = true := by simp [hct]
  have htr : JsVal.truthy (.str s) = true := by
    simp [JsVal.truthy, hne]
  simp only [extractMetadata, hess]
  rw [hct]
  simp only [htr, if_true]
  refine ⟨_, rfl, ?_⟩
  simp [newDateOfVal, newDateOfString, hpd]

/-- Witness for the amended C7 at a concrete metadata object and a parser
that rejects its `crawl_time` string. -/
theorem unparseable_crawl_time_nonfatal_witness :
    (unparseableCrawlMeta.crawl_time = some (.str "not-a-date")) ∧
    ("not-a-date" ≠ "") ∧
    ((fun _ : String => (none : Option Int)) "not-a-date" = none) ∧
    (∃ e, extractMetadata (fun _ => none) (some unparseableCrawlMeta) =
        some e ∧ e.crawl_datetime = some JsDate.invalid) :=
  ⟨by decide, by decide, rfl,
    unparseable_crawl_time_nonfatal (fun _ => none) unparseableCrawlMeta
      "not-a-date" (by decide) (by decide) rfl⟩

/-- Folding constant-value `jsSet`s over a list of keys. -/
theorem jsGet_foldl_setConst (v : Bool) (l : List String) :
    ∀ (m0 : List (String × Bool)) (k : String),
      jsGet (l.foldl (fun m a => jsSet m a v) m0) k =
        if k ∈ l then some v else jsGet m0 k := by
  induction l with
  | nil => intro m0 k; simp
  | cons x xs ih =>
    intro m0 k
    rw [List.foldl_cons, ih]
    by_cases hk : k ∈ xs
    · simp [hk]
    · by_cases hkx : k = x
      · subst hkx
        simp [hk, jsGet_jsSet_self]
      · simp [hk, hkx, jsGet_jsSet_ne m0 k x v hkx]

/-- Lookup characterization of the existence map built by
`checkExistingCore`. -/
theorem jsGet_checkExistingCore (ids existing : List String) (k : String) :
    jsGet (checkExistingCore ids existing) k =
      if k ∈ existing then some true
      else if k ∈ ids then some false else none := by
  unfold checkExistingCore
  rw [jsGet_foldl_setConst, jsGet_foldl_setConst]
  by_cases h1 : k ∈ existing
  · simp [h1]
  · by_cases h2 : k ∈ ids
    · simp [h1, h2]
    · simp [h1, h2, jsGet, List.find?]

/-- Against the real query, the existence map answers membership in the
persisted set, for every id that was asked. -/
theorem checkExisting_lookup (persisted ids : List String) (k : String)
    (hk : k ∈ ids) :
    jsGet (checkExistingArticles (mongoFind persisted) ids) k =
      some (decide (k ∈ persisted)) := by
  unfold checkExistingArticles mongoFind
  have hne : ids.isEmpty = false := by
    cases ids
    · simp at hk
    · rfl
  simp only [hne, Bool.false_eq_true, if_false]
  rw [jsGet_checkExistingCore]
  by_cases hp : k ∈ persisted
  · have hmem : k ∈ persisted.filter (fun a => ids.contains a) :=
      List.mem_filter.mpr ⟨hp, by simpa using hk⟩
    simp [hmem, hp, hk]
  · have hmem : k ∉ persisted.filter (fun a => ids.contains a) :=
      fun hx => hp (List.mem_filter.mp hx).1
    simp [hmem, hk, hp]

/-- Unfolding equation of `saveArticlesIds`. -/
theorem saveArticlesIds_cons (st : List String) (a : Article)
    (l : List Article) :
    saveArticlesIds st (a :: l) =
      saveArticlesIds (if st.contains a.id then st else st ++ [a.id]) l :=
  rfl

/-- Saving articles never removes a persisted id. -/
theorem saveArticlesIds_mono (l : List Article) :
    ∀ (st : List String) (x : String), x ∈ st →
      x ∈ saveArticlesIds st l := by
  induction l with
  | nil => intro st x hx; exact hx
  | cons a rest ih =>
    intro st x hx
    rw [saveArticlesIds_cons]
    apply ih
    split
    · exact hx
    · exact List.mem_append_left _ hx

/-- Every saved article's id is persisted afterwards. -/
theorem saveArticlesIds_mem (l : List Article) :
    ∀ (st : List String) (a : Article), a ∈ l →
      a.id ∈ saveArticlesIds st l := by
  induction l with
  | nil => intro st a ha; cases ha
  | cons b rest ih =>
    intro st a ha
    rw [saveArticlesIds_cons]
    rcases List.mem_cons.mp ha with rfl | hmem
    · apply saveArticlesIds_mono
      split
      next hc => simpa using hc
      next hc => exact List.mem_append_right _ (by simp)
    · exact ih _ a hmem

/-- C8.  Running the reconciler a second time over the same candidate set,
against the state the first run left behind, produces zero new article
writes: every candidate's identity is persisted after the first run, so
the second run's new partition is empty. -/
theorem reconciler_second_run_writes_nothing (persisted : List String)
    (candidates : List Article) :
    (runReconciler (runReconciler persisted candidates).persistedAfter
      candidates).newArticles = [] := by
  simp only [runReconciler, runReconcilerWith]
  rw [List.filter_eq_nil_iff]
  intro a ha
  have hk : a.id ∈ candidates.map (fun a => a.id) :=
    List.mem_map_of_mem _ ha
  rw [checkExisting_lookup _ _ _ hk]
  have hmem : a.id ∈ saveArticlesIds persisted
      (candidates.filter (fun a =>
        !((jsGet (checkExistingArticles (mongoFind persisted)
          (candidates.map (fun a => a.id))) a.id).getD false))) := by
    by_cases hp : a.id ∈ persisted
    · exact saveArticlesIds_mono _ _ _ hp
    · apply saveArticlesIds_mem
      apply List.mem_filter.mpr
      refine ⟨ha, ?_⟩
      rw [checkExisting_lookup _ _ _ hk]
      simp [hp]
  simp [hmem]

/-- C10.  When the bulk existence query throws, `checkExistingArticles`
swallows the error and returns the empty map, so the subsequent partition
classifies every candidate as new — the skipped partition is empty — and
re-submits all of them for a write, persisted identities included. -/
theorem query_failure_marks_all_candidates_new (err : String)
    (persisted : List String) (candidates : List Article) :
    checkExistingArticles (fun _ => Except.error err)
        (candidates.map (fun a => a.id)) = [] ∧
    (runReconcilerWith (fun _ => Except.error err) persisted
      candidates).newArticles = candidates ∧
    (runReconcilerWith (fun _ => Except.error err) persisted
      candidates).skippedArticles = [] := by
  have hmap : checkExistingArticles (fun _ => Except.error err)
      (candidates.map (fun a => a.id)) = [] := by
    unfold checkExistingArticles
    split
    · rfl
    · rfl
  refine ⟨hmap, ?_, ?_⟩
  · simp only [runReconcilerWith, hmap]
    rw [List.filter_eq_self]
    intro a ha
    simp [jsGet, List.find?]
  · simp only [runReconcilerWith, hmap]
    rw [List.filter_eq_nil_iff]
    intro a ha
    simp [jsGet, List.find?]

/-- C6.  Every group leaving the classifier has
`isBroken = hasHtml && !hasMetadata` and
`isComplete = hasHtml && hasMetadata`; in particular a pair with both
filenames is never broken, an HTML-only pair is broken and not complete,
and a pair without the HTML filename gets neither flag. -/
theorem identifyBrokenLinks_spec (grouped : List (String × HashGroup))
    (kv : String × HashGroup) (hkv : kv ∈ identifyBrokenLinks grouped) :
    kv.2.isBroken = ((kv.2.files.map (fun f => f.filename)).contains
        htmlFileName &&
      !((kv.2.files.map (fun f => f.filename)).contains metadataFileName)) ∧
    kv.2.isComplete = ((kv.2.files.map (fun f => f.filename)).contains
        htmlFileName &&
      (kv.2.files.map (fun f => f.filename)).contains metadataFileName) ∧
    ((kv.2.files.map (fun f => f.filename)).contains htmlFileName = true →
      (kv.2.files.map (fun f => f.filename)).contains metadataFileName =
        true → kv.2.isBroken = false ∧ kv.2.isComplete = true) ∧
    ((kv.2.files.map (fun f => f.filename)).contains htmlFileName = true →
      (kv.2.files.map (fun f => f.filename)).contains metadataFileName =
        false → kv.2.isBroken = true ∧ kv.2.isComplete = false) ∧
    ((kv.2.files.map (fun f => f.filename)).contains htmlFileName = false →
      kv.2.isBroken = false ∧ kv.2.isComplete = false) := by
  rcases List.mem_map.mp hkv with ⟨p, -, rfl⟩
  dsimp only
  generalize (p.2.files.map (fun f => f.filename)).contains htmlFileName = a
  generalize (p.2.files.map (fun f => f.filename)).contains
    metadataFileName = b
  cases a <;> cases b <;> decide

/-- Witness for C6 on a grouped listing holding an HTML-only pair. -/
theorem identifyBrokenLinks_spec_witness :
    ((identifyBrokenLinks (groupFilesByHash
        [⟨"/ex.com/h1/page.html", 10, "t1"⟩])).getD 0
        ("", ⟨"", "", [], false, false⟩) ∈
      identifyBrokenLinks (groupFilesByHash
        [⟨"/ex.com/h1/page.html", 10, "t1"⟩])) ∧
    (let kv := (identifyBrokenLinks (groupFilesByHash
        [⟨"/ex.com/h1/page.html", 10, "t1"⟩])).getD 0
        ("", ⟨"", "", [], false, false⟩)
     kv.2.isBroken = ((kv.2.files.map (fun f => f.filename)).contains
        htmlFileName &&
      !((kv.2.files.map (fun f => f.filename)).contains metadataFileName)) ∧
     kv.2.isComplete = ((kv.2.files.map (fun f => f.filename)).contains
        htmlFileName &&
      (kv.2.files.map (fun f => f.filename)).contains metadataFileName) ∧
     ((kv.2.files.map (fun f => f.filename)).contains htmlFileName = true →
      (kv.2.files.map (fun f => f.filename)).contains metadataFileName =
        true → kv.2.isBroken = false ∧ kv.2.isComplete = true) ∧
     ((kv.2.files.map (fun f => f.filename)).contains htmlFileName = true →
      (kv.2.files.map (fun f => f.filename)).contains metadataFileName =
        false → kv.2.isBroken = true ∧ kv.2.isComplete = false) ∧
     ((kv.2.files.map (fun f => f.filename)).contains htmlFileName = false →
      kv.2.isBroken = false ∧ kv.2.isComplete = false)) :=
  ⟨by decide,
    identifyBrokenLinks_spec
      (groupFilesByHash [⟨"/ex.com/h1/page.html", 10, "t1"⟩]) _ (by decide)⟩

end CrawledNews
